import Mathlib

/-!
Verification of the response-parsing subsystem of `persona_streamlit_app.py`.

Strings are modelled as lists of characters (`Str := List Char`).  The Python
character classes (`\s`, `\d`, `\w`, `str.splitlines` line breaks) are embedded
by their ASCII members, which cover every string the program's fixed headings,
markers and the analysed claims involve.

The regular expressions of the source are embedded as deterministic scanners.
This is justified case by case:
* `extract_section` uses `\*\*H:\*\*\s*(.*?)(?=\n\*\*|$)` with `re.DOTALL`.
  Backtracking is LIFO, so after the greedy `\s*` the lazy `(.*?)` grows first,
  and since the lookahead `$` always holds at the end of the input the lazy
  group always succeeds; hence `\s*` never gives characters back, and the
  capture is the shortest prefix of the whitespace-skipped remainder whose
  following suffix starts with `"\n**"` or is `""` or `"\n"` (the two positions
  where `$` matches without `re.MULTILINE`).
* `re.match (\d+)%\s+(\w+)` is anchored; `\d+` greedy cannot backtrack
  usefully (a shorter digit run is still followed by a digit, never `%`), and
  `\w` and `\s` are disjoint, so the scan below is exact.
-/

namespace PersonaFinder

/-- Strings as lists of characters. -/
abbrev Str := List Char

/-- ASCII members of Python's `\s` class (also what `str.strip()` removes). -/
def isPySpace (c : Char) : Bool :=
  c = ' ' || c = '\t' || c = '\n' || c = '\x0d' || c = '\x0b' || c = '\x0c'

/-- Remove the characters satisfying `p` from both ends of a string: the
embedding of Python's `str.strip(chars)`. -/
def stripEnds (p : Char → Bool) (s : Str) : Str :=
  ((s.dropWhile p).reverse.dropWhile p).reverse

/-- Python `str.strip()` (no argument): trim whitespace from both ends. -/
def stripWS (s : Str) : Str := stripEnds isPySpace s

/-- The character set of `strip("•- ")` in the source. -/
def isBulletChar (c : Char) : Bool := c = '•' || c = '-' || c = ' '

/-- ASCII line breaks recognised by Python's `str.splitlines`. -/
def isLineBreak (c : Char) : Bool :=
  c = '\n' || c = '\x0d' || c = '\x0b' || c = '\x0c' ||
  c = '\x1c' || c = '\x1d' || c = '\x1e'

/-- Worker for `splitlines`; `acc` holds the current line reversed
(a carriage return followed by a newline counts as a single break). -/
def splitlinesGo : Str → Str → List Str
  | [], acc => if acc.isEmpty then [] else [acc.reverse]
  | '\x0d' :: '\n' :: t, acc => acc.reverse :: splitlinesGo t []
  | c :: t, acc =>
    if isLineBreak c then acc.reverse :: splitlinesGo t []
    else splitlinesGo t (c :: acc)

/-- Python `str.splitlines()`: split on line breaks (`\r\n` counts once), with
no trailing empty line for a trailing line break. -/
def splitlines (s : Str) : List Str := splitlinesGo s []

/-- First index at which `pat` occurs as a contiguous substring, if any:
the position where `re.search` anchors a pattern beginning with this literal. -/
def findSub (pat : Str) : Str → Option Nat
  | [] => if pat.isPrefixOf ([] : Str) then some 0 else none
  | c :: t =>
    if pat.isPrefixOf (c :: t) then some 0
    else (findSub pat t).map (· + 1)

/-- The literal marker `**<header>:**` built by the source's f-string
(`re.escape` is the identity on the ten heading names, which contain no regex
metacharacters). -/
def markerOf (header : Str) : Str :=
  '*' :: '*' :: (header ++ (':' :: '*' :: '*' :: []))

/-- Positions where the lookahead `(?=\n\*\*|$)` succeeds, expressed on the
remaining suffix: it starts with `"\n**"`, or is empty, or is the final
newline of the text (where `$` matches without `re.MULTILINE`). -/
def sectionStop : Str → Bool
  | '\n' :: '*' :: '*' :: _ => true
  | [] => true
  | ['\n'] => true
  | _ => false

/-- The lazy capture `(.*?)` before the lookahead: the shortest prefix whose
following suffix satisfies `sectionStop`. -/
def lazyCapture : Str → Str
  | [] => []
  | c :: t => if sectionStop (c :: t) then [] else c :: lazyCapture t

/-- The suffix left over by `lazyCapture`. -/
def lazyRest : Str → Str
  | [] => []
  | c :: t => if sectionStop (c :: t) then c :: t else lazyRest t

/-- Embedding of `extract_section` of the source (a closure over `response_text` there;
here the text is an explicit first argument):
`re.search(rf"\*\*{re.escape(header)}:\*\*\s*(.*?)(?=\n\*\*|$)", text,
re.DOTALL)`, returning the stripped capture group, or `""` on no match. -/
def extract_section (text header : Str) : Str :=
  match findSub (markerOf header) text with
  | none => []
  | some i =>
    stripWS (lazyCapture ((text.drop (i + (markerOf header).length)).dropWhile isPySpace))

/-- Embedding of `line.strip("•- ").strip()`, the per-line normalisation shared by the two
list extractors. -/
def cleanLine (line : Str) : Str := stripWS (stripEnds isBulletChar line)

/-- Embedding of `extract_bullet_list` of the source:
`[line.strip("•- ").strip() for line in section_text.splitlines() if line.strip()]`. -/
def extract_bullet_list (section_text : Str) : List Str :=
  ((splitlines section_text).filter (fun line => !(stripWS line).isEmpty)).map cleanLine

/-- Embedding of `line.rsplit("(", 1)` for a line containing `'('`: the text before the
last `'('` and the text after it. -/
def parenSplitLast (line : Str) : Str × Str :=
  let afterRev := line.reverse.takeWhile (fun c => c ≠ '(')
  (line.take (line.length - afterRev.length - 1), afterRev.reverse)

/-- The body of the source's `extract_key_value_pairs` loop applied to an
already-normalised line: split at the last `'('` when the line contains both
parenthesis characters (`parts[1].strip(")")` removes every leading and
trailing `')'`), else the whole line with empty detail. -/
def kvSplit (line : Str) : Str × Str :=
  if line.contains '(' && line.contains ')' then
    let p := parenSplitLast line
    (stripWS p.1, stripEnds (fun c => c = ')') p.2)
  else (line, [])

/-- One iteration of the source loop: normalise the raw line, then split. -/
def kvLine (line0 : Str) : Str × Str := kvSplit (cleanLine line0)

/-- Embedding of `extract_key_value_pairs` of the source.  Note the loop has no blank-line
filter: every line of `splitlines` produces a pair. -/
def extract_key_value_pairs (section_text : Str) : List (Str × Str) :=
  (splitlines section_text).map kvLine

/-- Python `personality_text.split(",")`: split at every comma, keeping empty
pieces (`"".split(",") == [""]`). -/
def splitCommaGo : Str → Str → List Str
  | [], acc => [acc.reverse]
  | c :: t, acc =>
    if c = ',' then acc.reverse :: splitCommaGo t []
    else splitCommaGo t (c :: acc)

/-- Embedding of `str.split(",")`. -/
def splitComma (s : Str) : List Str := splitCommaGo s []

/-- ASCII members of Python's `\w` class. -/
def isWordChar (c : Char) : Bool := c.isAlphanum || c = '_'

/-- Decimal value of a digit run (`int(match.group(1))`). -/
def natOfDigits (ds : Str) : Nat :=
  ds.foldl (fun n c => 10 * n + (c.toNat - '0'.toNat)) 0

/-- Embedding of `re.match(r"(\d+)%\s+(\w+)", t)`: an anchored match of a digit run, a
percent sign, at least one whitespace character and a word run, returning the
integer value and the word. -/
def matchPercent (t : Str) : Option (Nat × Str) :=
  let ds := t.takeWhile Char.isDigit
  if ds.isEmpty then none else
  match t.dropWhile Char.isDigit with
  | '%' :: r2 =>
    let ws := r2.takeWhile isPySpace
    let w := (r2.dropWhile isPySpace).takeWhile isWordChar
    if ws.isEmpty || w.isEmpty then none else some (natOfDigits ds, w)
  | _ => none

/-- Python `str.capitalize()` (ASCII): first character uppercased, the rest
lowercased. -/
def capitalize : Str → Str
  | [] => []
  | c :: t => c.toUpper :: t.map Char.toLower

/-- The `scores` dict built by the loop in `generate_personality_bars`,
as an association list whose head is the most recent write. -/
def recordScores (traits : List Str) : List (Str × Nat) :=
  traits.foldl (fun m t =>
    match matchPercent (stripWS t) with
    | some pw => (capitalize pw.2, pw.1) :: m
    | none => m) []

/-- Embedding of `scores.get(key, 0)`: the most recent write wins, absent keys read 0. -/
def getScore (m : List (Str × Nat)) (k : Str) : Nat :=
  match m.find? (fun e => e.1 == k) with
  | some e => e.2
  | none => 0

/-- The `scores` dict for a full personality line. -/
def scoresOf (personality_text : Str) : List (Str × Nat) :=
  recordScores (splitComma personality_text)

/-- Embedding of `str.upper()` (ASCII). -/
def toUpperStr (s : Str) : Str := s.map Char.toUpper

/-- The f-string padding `{left.upper():<11}`: left-justify to width 11. -/
def padLeftJust (w : Nat) (s : Str) : Str := s ++ List.replicate (w - s.length) ' '

/-- Embedding of `round(left_score / 100 * 20)` for an integer score.  The exact value
`score/5` has fractional part a multiple of `1/5`, so it is never a half-way
case and Python's half-to-even float round agrees with exact nearest rounding
`⌊score/5 + 1/2⌋ = (2*score+5)/10` whenever the float arithmetic is exact or
within the `1/10` gap: checked exhaustively for 0..100 (the only range the
theorems below evaluate it on, plus the failing input `10^22`, where
`10^22/100 = 10^20` and `10^20 * 20 = 2*10^21` are exactly representable
doubles because `5^20` and `5^21` are below `2^53`).  Outside those scores
CPython can diverge (float rounding beyond `2^53`-scale values) or raise
`OverflowError` (`int / int` beyond the double range, around 310 digits);
the overflow-aware model `pyRepeat`/`barE` below surfaces the failure path
reachable through this function's result. -/
def roundCells (score : Nat) : Nat := (2 * score + 5) / 10

/-- The bar string built in the source's `bar` closure from a left score:
`f"{left.upper():<11} [" + "■"*left_len + "-"*right_len + f"] {right.upper()}"`.
`right_len = 20 - left_len` is a Python int; when it is negative the string
repetition yields `""`, which truncated natural subtraction models exactly.
This total function is the projection of the program taken when no
`OverflowError` occurs: CPython raises once `left_len` exceeds `Py_ssize_t`,
which `barE` below models; `barRender` is faithful exactly where the theorems
use it (scores 0..100, where `left_len` is at most 20). -/
def barRender (score : Nat) (left right : Str) : Str :=
  padLeftJust 11 (toUpperStr left) ++ (' ' :: '[' :: []) ++
    List.replicate (roundCells score) '■' ++
    List.replicate (20 - roundCells score) '-' ++
    (']' :: ' ' :: []) ++ toUpperStr right

/-- The source's `bar(left, right)`: look the capitalised left label up in
`scores` (default 0) and render. -/
def bar (scores : List (Str × Nat)) (left right : Str) : Str :=
  barRender (getScore scores (capitalize left)) left right

/-- Embedding of `generate_personality_bars` of the source. -/
def generate_personality_bars (personality_text : Str) : List Str :=
  let scores := scoresOf personality_text
  [bar scores "Introverted".toList "Extroverted".toList,
   bar scores "Intuitive".toList "Sensing".toList,
   bar scores "Feeling".toList "Thinking".toList,
   bar scores "Perceiving".toList "Judging".toList]

/-- The four fixed axis pairs, in the order of the source's return list. -/
def axisPairs : List (Str × Str) :=
  [("Introverted".toList, "Extroverted".toList),
   ("Intuitive".toList, "Sensing".toList),
   ("Feeling".toList, "Thinking".toList),
   ("Perceiving".toList, "Judging".toList)]

/-- The dictionary assembled by `parse_llm_response` (the `name` key is
attached by the caller, not by the parser). -/
structure ExtractedRecord where
  motivations : List (Str × Str)
  frustrations : List (Str × Str)
  behaviors : List (Str × Str)
  goals : List Str
  quote : Str
  personality_bars : List Str
  age : Str
  occupation : Str
  status : Str
  location : Str
  archetype : Str
deriving DecidableEq, Repr

/-- Embedding of `parse_llm_response` of the source. -/
def parse_llm_response (response_text : Str) : ExtractedRecord where
  motivations := extract_key_value_pairs (extract_section response_text "Motivations".toList)
  frustrations := extract_key_value_pairs (extract_section response_text "Frustrations".toList)
  behaviors := extract_key_value_pairs (extract_section response_text "Behavioral habits".toList)
  goals := extract_bullet_list (extract_section response_text "Goals and needs".toList)
  quote := stripEnds (fun c => c = '"') (extract_section response_text "Short quote".toList)
  personality_bars := generate_personality_bars (extract_section response_text "Personality".toList)
  age := extract_section response_text "Age".toList
  occupation := extract_section response_text "Occupation".toList
  status := extract_section response_text "Status".toList
  location := extract_section response_text "Location".toList
  archetype := extract_section response_text "Archetype".toList

/-- Whether some clause of `ts` matches the percentage pattern and its
capitalised word is `label` (spec-side helper for the last-write-wins
description). -/
def hasScoreFor (label : Str) (ts : List Str) : Bool :=
  ts.any (fun t =>
    match matchPercent (stripWS t) with
    | some pw => capitalize pw.2 == label
    | none => false)

/-- Spec-side description of the claim on the `scores` map: the recorded score
of `label` is the integer of the last (rightmost) clause that matches the
percentage-and-label pattern and capitalises to `label`; clauses that do not
match contribute nothing; absent labels read 0. -/
def claimedScore (label : Str) : List Str → Nat
  | [] => 0
  | t :: ts =>
    if hasScoreFor label ts then claimedScore label ts
    else
      match matchPercent (stripWS t) with
      | some pw => if capitalize pw.2 == label then pw.1 else 0
      | none => 0

/-- The end-to-end input of the spec's scenario 7. -/
def c4Input : Str :=
  "**Age:** 27\n**Personality:** 80% Introverted, 30% Intuitive\n**Short quote:** \"Just vibing\"".toList

/-- Maximum of `Py_ssize_t` on a 64-bit CPython (`sys.maxsize`): the largest
repeat count string repetition accepts. -/
def pyMaxSize : Nat := 2 ^ 63 - 1

/-- Embedding of CPython string repetition `"c" * n` on a 64-bit platform: a
repeat count beyond `Py_ssize_t` raises
`OverflowError: cannot fit 'int' into an index-sized integer`.  (A count that
fits but exhausts memory raises `MemoryError`; memory limits are not
modelled.) -/
def pyRepeat (n : Nat) (c : Char) : Except String Str :=
  if n ≤ pyMaxSize then .ok (List.replicate n c) else .error "OverflowError"

/-- Embedding of the source's `bar` closure with the CPython failure path
surfaced: `"■" * left_len` raises `OverflowError` when `left_len` exceeds
`Py_ssize_t` (the regex `(\d+)` matches arbitrarily many digits and Python
ints are unbounded, so this is reachable).  `"-" * right_len` never
overflows: `right_len <= 20` always. -/
def barE (scores : List (Str × Nat)) (left right : Str) : Except String Str := do
  let n := roundCells (getScore scores (capitalize left))
  let filled ← pyRepeat n '■'
  .ok (padLeftJust 11 (toUpperStr left) ++ (' ' :: '[' :: []) ++ filled ++
    List.replicate (20 - n) '-' ++ (']' :: ' ' :: []) ++ toUpperStr right)

/-- Embedding of `generate_personality_bars` with the failure path surfaced:
the first axis whose rendering overflows aborts the call with the exception,
as in Python. -/
def generate_personality_barsE (personality_text : Str) : Except String (List Str) := do
  let scores := scoresOf personality_text
  let b1 ← barE scores "Introverted".toList "Extroverted".toList
  let b2 ← barE scores "Intuitive".toList "Sensing".toList
  let b3 ← barE scores "Feeling".toList "Thinking".toList
  let b4 ← barE scores "Perceiving".toList "Judging".toList
  .ok [b1, b2, b3, b4]

/-- Embedding of `parse_llm_response` with the failure path surfaced: nothing
in the source catches the exception raised while rendering the Personality
bars, so it propagates out of the parser. -/
def parse_llm_responseE (response_text : Str) : Except String ExtractedRecord := do
  let bars ← generate_personality_barsE (extract_section response_text "Personality".toList)
  .ok { motivations := extract_key_value_pairs (extract_section response_text "Motivations".toList)
        frustrations := extract_key_value_pairs (extract_section response_text "Frustrations".toList)
        behaviors := extract_key_value_pairs (extract_section response_text "Behavioral habits".toList)
        goals := extract_bullet_list (extract_section response_text "Goals and needs".toList)
        quote := stripEnds (fun c => c = '"') (extract_section response_text "Short quote".toList)
        personality_bars := bars
        age := extract_section response_text "Age".toList
        occupation := extract_section response_text "Occupation".toList
        status := extract_section response_text "Status".toList
        location := extract_section response_text "Location".toList
        archetype := extract_section response_text "Archetype".toList }

/-- The personality text of the failing input: a 23-digit percentage, 10^22.
Its float arithmetic is exact (see `roundCells`), and the resulting
`left_len = 2 * 10^21` exceeds `Py_ssize_t`. -/
def overflowScoreText : Str := "10000000000000000000000% Introverted".toList

/-- The failing response text: the same percentage under the Personality
heading. -/
def overflowInput : Str :=
  "**Personality:** 10000000000000000000000% Introverted".toList

/- ======================  theorems  ====================== -/

/-- The capture and the leftover of the lazy scan recompose the input. -/
lemma lazyCapture_append_lazyRest (s : Str) : lazyCapture s ++ lazyRest s = s := by
  induction s with
  | nil => rfl
  | cons c t ih =>
    by_cases h : sectionStop (c :: t) = true
    · simp [lazyCapture, lazyRest, h]
    · simp [lazyCapture, lazyRest, h, ih]

/-- The leftover of the lazy scan satisfies the lookahead. -/
lemma sectionStop_lazyRest (s : Str) : sectionStop (lazyRest s) = true := by
  induction s with
  | nil => rfl
  | cons c t ih =>
    by_cases h : sectionStop (c :: t) = true
    · simp [lazyRest, h]
    · simpa [lazyRest, h] using ih

/-- The lazy scan stops at the first position where the lookahead holds: at
every earlier position it fails. -/
lemma lazyCapture_minimal (s : Str) :
    ∀ k, k < (lazyCapture s).length →
      sectionStop ((lazyCapture s).drop k ++ lazyRest s) = false := by
  induction s with
  | nil => simp [lazyCapture]
  | cons c t ih =>
    by_cases h : sectionStop (c :: t) = true
    · simp [lazyCapture, h]
    · intro k hk
      simp only [lazyCapture, if_neg h] at hk ⊢
      simp only [lazyRest, if_neg h]
      match k with
      | 0 =>
        have hrec : (c :: lazyCapture t).drop 0 ++ lazyRest t = c :: t := by
          simp [lazyCapture_append_lazyRest]
        rw [hrec]
        simpa using h
      | k + 1 =>
        have hk' : k < (lazyCapture t).length := by
          simpa using Nat.lt_of_succ_lt_succ hk
        simpa using ih k hk'

/-- A string splits at only one position that satisfies the lookahead and is
minimal among such positions. -/
lemma stop_prefix_unique {p r q s : Str} (h : p ++ r = q ++ s)
    (hr : sectionStop r = true) (hs : sectionStop s = true)
    (hp : ∀ k, k < p.length → sectionStop (p.drop k ++ r) = false)
    (hq : ∀ k, k < q.length → sectionStop (q.drop k ++ s) = false) :
    p = q := by
  rcases Nat.lt_trichotomy p.length q.length with hlt | heq | hgt
  · exfalso
    have h1 := hq p.length hlt
    have h2 : q.drop p.length ++ s = r := by
      have e1 : (q ++ s).drop p.length = q.drop p.length ++ s := by
        rw [List.drop_append_eq_append_drop]
        have : p.length - q.length = 0 := by omega
        rw [this, List.drop_zero]
      have e2 : (p ++ r).drop p.length = r := by
        rw [List.drop_append_eq_append_drop]
        simp
      rw [← e1, ← h, e2]
    rw [h2] at h1
    exact absurd hr (by simp [h1])
  · exact List.append_inj_left h heq
  · exfalso
    have h1 := hp q.length hgt
    have h2 : p.drop q.length ++ r = s := by
      have e1 : (p ++ r).drop q.length = p.drop q.length ++ r := by
        rw [List.drop_append_eq_append_drop]
        have : q.length - p.length = 0 := by omega
        rw [this, List.drop_zero]
      have e2 : (q ++ s).drop q.length = s := by
        rw [List.drop_append_eq_append_drop]
        simp
      rw [← e1, h, e2]
    rw [h2] at h1
    exact absurd hs (by simp [h1])

/-- Unfolding of `extract_section` when the marker is absent. -/
lemma extract_section_of_none {text header : Str}
    (h : findSub (markerOf header) text = none) :
    extract_section text header = [] := by
  unfold extract_section
  rw [h]

/-- C1 (amended): when the marker is absent `extract_section` returns the
empty string; when its first occurrence is at index `i`, the result is the
shortest prefix, trimmed, of the text after the marker and after the greedy
whitespace skip, whose following suffix starts with a newline followed by
`**` or is the end of the text (possibly a final newline).  The greedy
whitespace skip is what the original claim misses: a heading immediately
followed by another heading has its newline consumed by the skip, so the
capture runs into the next heading's line instead of being empty. -/
theorem C1_amended (text header : Str) (i : Nat) (p r : Str)
    (hsplit : (text.drop (i + (markerOf header).length)).dropWhile isPySpace = p ++ r)
    (hstop : sectionStop r = true)
    (hmin : ∀ k, k < p.length → sectionStop (p.drop k ++ r) = false) :
    (findSub (markerOf header) text = none → extract_section text header = []) ∧
    (findSub (markerOf header) text = some i → extract_section text header = stripWS p) := by
  constructor
  · exact fun h => extract_section_of_none h
  · intro hfind
    unfold extract_section
    rw [hfind]
    show stripWS (lazyCapture ((text.drop (i + (markerOf header).length)).dropWhile isPySpace)) =
      stripWS p
    set body := (text.drop (i + (markerOf header).length)).dropWhile isPySpace with hbody
    have hdec : lazyCapture body ++ lazyRest body = body := lazyCapture_append_lazyRest body
    have hpq : p ++ r = lazyCapture body ++ lazyRest body := by rw [hdec, ← hsplit]
    have : p = lazyCapture body :=
      stop_prefix_unique hpq hstop (sectionStop_lazyRest body) hmin (lazyCapture_minimal body)
    rw [← this]

/-- C1 witness: on a well-formed input the marker is found and the captured
section is the trimmed text up to the end of the input. -/
theorem C1_amended_witness :
    (findSub (markerOf "Age".toList) "**Age:** 27".toList = none →
      extract_section "**Age:** 27".toList "Age".toList = []) ∧
    (findSub (markerOf "Age".toList) "**Age:** 27".toList = some 0 →
      extract_section "**Age:** 27".toList "Age".toList = stripWS "27".toList) :=
  C1_amended "**Age:** 27".toList "Age".toList 0 "27".toList [] (by decide) (by decide)
    (by decide)

/-- C1 counterexample: a heading immediately followed by another heading does
not yield the empty string - the whole next heading line is returned. -/
theorem C1_counterexample :
    extract_section "**Age:**\n**Occupation:** 27".toList "Age".toList =
      "**Occupation:** 27".toList ∧
    extract_section "**Age:**\n**Occupation:** 27".toList "Age".toList ≠ ([] : Str) := by
  decide

/-- C6 (confirmed): the line with nested parentheses splits at the last
opening parenthesis, label and detail as documented. -/
theorem C6 :
    extract_key_value_pairs
        "Fear of failure (seen in repeated self-doubt (noted twice))".toList =
      [("Fear of failure (seen in repeated self-doubt".toList, "noted twice".toList)] := by
  decide

/-- C4 (confirmed): the end-to-end scenario: age is the string 27, the quote
loses its outer double quotes, bar 1 has 16 of 20 cells filled, bar 2 has 6,
bars 3 and 4 have 0. -/
theorem C4 :
    (parse_llm_response c4Input).age = "27".toList ∧
    (parse_llm_response c4Input).quote = "Just vibing".toList ∧
    (parse_llm_response c4Input).personality_bars.length = 4 ∧
    ((parse_llm_response c4Input).personality_bars.getD 0 []).count '■' = 16 ∧
    ((parse_llm_response c4Input).personality_bars.getD 0 []).count '-' = 4 ∧
    ((parse_llm_response c4Input).personality_bars.getD 1 []).count '■' = 6 ∧
    ((parse_llm_response c4Input).personality_bars.getD 1 []).count '-' = 14 ∧
    ((parse_llm_response c4Input).personality_bars.getD 2 []).count '■' = 0 ∧
    ((parse_llm_response c4Input).personality_bars.getD 2 []).count '-' = 20 ∧
    ((parse_llm_response c4Input).personality_bars.getD 3 []).count '■' = 0 ∧
    ((parse_llm_response c4Input).personality_bars.getD 3 []).count '-' = 20 := by
  decide

/-- C7 counterexample: the blank second line is not dropped - it becomes the
pair of empty strings - and the detail has every trailing closing parenthesis
removed, not exactly one. -/
theorem C7_counterexample :
    extract_key_value_pairs "x (y))\n\n".toList = [("x".toList, "y".toList), ([], [])] ∧
    extract_key_value_pairs "x (y))\n\n".toList ≠ [("x".toList, "y)".toList)] := by
  decide

/-- C8 counterexample: a line consisting of a single bullet glyph is not
dropped - it is emitted as an empty entry - and a trailing bullet glyph is
stripped as well. -/
theorem C8_counterexample :
    extract_bullet_list "a -\n-".toList = ["a".toList, ([] : Str)] ∧
    ([] : Str) ∈ extract_bullet_list "a -\n-".toList ∧
    extract_bullet_list "a -\n-".toList ≠ ["a -".toList] := by
  decide

/-- Counting the filled glyph in a rendered bar: labels free of the glyph
contribute nothing, so the count is the filled-cell length. -/
lemma count_filled_barRender (s : Nat) (left right : Str)
    (hl : (toUpperStr left).count '■' = 0) (hr2 : (toUpperStr right).count '■' = 0) :
    (barRender s left right).count '■' = roundCells s := by
  simp [barRender, padLeftJust, List.count_append, List.count_replicate,
    List.count_replicate_self, hl, hr2,
    show (('■' : Char) == ' ') = false from rfl,
    show (('■' : Char) == '-') = false from rfl,
    show (('■' : Char) == '[') = false from rfl,
    show (('■' : Char) == ']') = false from rfl]

/-- Counting the unfilled glyph in a rendered bar: labels and padding free of
the dash contribute nothing, so the count is the unfilled-cell length. -/
lemma count_dash_barRender (s : Nat) (left right : Str)
    (hl : (toUpperStr left).count '-' = 0) (hr2 : (toUpperStr right).count '-' = 0) :
    (barRender s left right).count '-' = 20 - roundCells s := by
  simp [barRender, padLeftJust, List.count_append, List.count_replicate,
    List.count_replicate_self, hl, hr2,
    show (('-' : Char) == ' ') = false from rfl,
    show (('-' : Char) == '■') = false from rfl,
    show (('-' : Char) == '[') = false from rfl,
    show (('-' : Char) == ']') = false from rfl]

/-- The integer bar arithmetic agrees with exact rational rounding of
`score / 100 * 20`: for an integer score the value is never a half-way case,
so nearest rounding is unambiguous. -/
lemma roundCells_eq_round (s : Nat) : (roundCells s : ℤ) = round ((s : ℚ) / 100 * 20) := by
  rw [round_eq]
  have h1 : (s : ℚ) / 100 * 20 + 1 / 2 = ((2 * s + 5 : ℕ) : ℚ) / ((10 : ℕ) : ℚ) := by
    push_cast
    ring
  rw [h1, Rat.floor_natCast_div_natCast]
  rfl

/-- C5 (confirmed): for a recorded left score between 0 and 100, the rendered
axis bar has exactly round(score / 100 * 20) filled cells (rounding over the
rationals; no integer score hits a half-way case) and the filled plus
unfilled cells always total 20. -/
theorem C5 (s : Nat) (left right : Str) (hs : s ≤ 100)
    (hp : (left, right) ∈ axisPairs) :
    ((barRender s left right).count '■' : ℤ) = round ((s : ℚ) / 100 * 20) ∧
    (barRender s left right).count '■' + (barRender s left right).count '-' = 20 := by
  have hle : roundCells s ≤ 20 := by
    unfold roundCells
    omega
  have hcase : (toUpperStr left).count '■' = 0 ∧ (toUpperStr right).count '■' = 0 ∧
      (toUpperStr left).count '-' = 0 ∧ (toUpperStr right).count '-' = 0 := by
    fin_cases hp <;> refine ⟨by decide, by decide, by decide, by decide⟩
  obtain ⟨h1, h2, h3, h4⟩ := hcase
  constructor
  · rw [count_filled_barRender s left right h1 h2]
    exact roundCells_eq_round s
  · rw [count_filled_barRender s left right h1 h2, count_dash_barRender s left right h3 h4]
    omega

/-- C5 witness: a score of 80 on the first axis renders 16 filled and 4
unfilled cells. -/
theorem C5_witness :
    ((barRender 80 "Introverted".toList "Extroverted".toList).count '■' : ℤ) =
      round ((80 : ℚ) / 100 * 20) ∧
    (barRender 80 "Introverted".toList "Extroverted".toList).count '■' +
      (barRender 80 "Introverted".toList "Extroverted".toList).count '-' = 20 :=
  C5 80 "Introverted".toList "Extroverted".toList (by omega) (by decide)

/-- Reading a freshly written key returns its value; other keys read through. -/
lemma getScore_cons (k : Str) (v : Nat) (m : List (Str × Nat)) (label : Str) :
    getScore ((k, v) :: m) label = if k == label then v else getScore m label := by
  unfold getScore
  rw [List.find?_cons]
  by_cases h : (k == label) = true
  · simp [h]
  · simp only [Bool.not_eq_true] at h
    simp [h]

/-- A label without a matching clause has score 0 under the claimed reading. -/
lemma claimedScore_of_not_has {label : Str} :
    ∀ {ts : List Str}, hasScoreFor label ts = false → claimedScore label ts = 0 := by
  intro ts
  induction ts with
  | nil => intro _; rfl
  | cons t ts ih =>
    intro h
    have hsplit : (match matchPercent (stripWS t) with
        | some pw => capitalize pw.2 == label
        | none => false) = false ∧ hasScoreFor label ts = false := by
      have := h
      unfold hasScoreFor at this
      rw [List.any_cons] at this
      constructor
      · exact Bool.or_eq_false_iff.mp this |>.1
      · exact Bool.or_eq_false_iff.mp this |>.2
    unfold claimedScore
    rw [hsplit.2]
    simp only [Bool.false_eq_true, if_false]
    cases hm : matchPercent (stripWS t) with
    | none => rfl
    | some pw =>
      have : (capitalize pw.2 == label) = false := by
        have h1 := hsplit.1
        rw [hm] at h1
        exact h1
      simp [this]

/-- Unfolding equation of `claimedScore` at a cons cell. -/
lemma claimedScore_cons (label t : Str) (ts : List Str) :
    claimedScore label (t :: ts) =
      if hasScoreFor label ts then claimedScore label ts
      else
        match matchPercent (stripWS t) with
        | some pw => if capitalize pw.2 == label then pw.1 else 0
        | none => 0 := rfl

/-- The fold building the scores map, read at a label, returns the claimed
last-write-wins value when some clause writes the label, and reads the initial
map through otherwise. -/
lemma foldl_scores_getScore (label : Str) :
    ∀ (ts : List Str) (m : List (Str × Nat)),
      getScore (ts.foldl (fun m t =>
        match matchPercent (stripWS t) with
        | some pw => (capitalize pw.2, pw.1) :: m
        | none => m) m) label =
      if hasScoreFor label ts then claimedScore label ts else getScore m label := by
  intro ts
  induction ts with
  | nil =>
    intro m
    simp [hasScoreFor]
  | cons t ts ih =>
    intro m
    rw [List.foldl_cons, ih]
    have hany : hasScoreFor label (t :: ts) =
        ((match matchPercent (stripWS t) with
          | some pw => capitalize pw.2 == label
          | none => false) || hasScoreFor label ts) := by
      unfold hasScoreFor
      rw [List.any_cons]
    by_cases hts : hasScoreFor label ts = true
    · have h1 : hasScoreFor label (t :: ts) = true := by
        rw [hany, hts, Bool.or_true]
      rw [hts, if_pos rfl, h1, if_pos rfl, claimedScore_cons, if_pos hts]
    · have hts' : hasScoreFor label ts = false := Bool.not_eq_true _ ▸ hts
      rw [hts']
      simp only [Bool.false_eq_true, if_false]
      cases hm : matchPercent (stripWS t) with
      | none =>
        have h1 : hasScoreFor label (t :: ts) = false := by
          rw [hany, hm, hts', Bool.or_false]
        rw [h1]
        simp
      | some pw =>
        by_cases hc : (capitalize pw.2 == label) = true
        · have h1 : hasScoreFor label (t :: ts) = true := by
            rw [hany, hm]
            simp [hc]
          rw [h1, if_pos rfl, getScore_cons, if_pos hc, claimedScore_cons, hts', hm]
          simp [hc]
        · have hc' : (capitalize pw.2 == label) = false := Bool.not_eq_true _ ▸ hc
          have h1 : hasScoreFor label (t :: ts) = false := by
            rw [hany, hm]
            simp [hc', hts']
          rw [h1, getScore_cons, hc']
          simp

/-- C9 (confirmed): reading any label out of the scores map built by
`generate_personality_bars` yields exactly the integer of the last
comma-separated clause whose anchored percentage-and-word match capitalises
to that label; clauses that do not match the pattern contribute nothing, and
a label no clause writes reads 0 (the whole computation is a total function:
no input raises). -/
theorem C9 (personality_text : Str) (label : Str) :
    getScore (scoresOf personality_text) label =
      claimedScore label (splitComma personality_text) := by
  unfold scoresOf recordScores
  rw [foldl_scores_getScore]
  by_cases h : hasScoreFor label (splitComma personality_text) = true
  · rw [if_pos h]
  · have h' : hasScoreFor label (splitComma personality_text) = false :=
      Bool.not_eq_true _ ▸ h
    rw [h']
    simp only [Bool.false_eq_true, if_false]
    rw [claimedScore_of_not_has h']
    rfl

/-- The first element surviving `dropWhile` fails the predicate. -/
lemma dropWhile_head?_not (p : Char → Bool) :
    ∀ (l : Str) (c : Char), (l.dropWhile p).head? = some c → p c = false := by
  intro l
  induction l with
  | nil =>
    intro c h
    simp [List.dropWhile] at h
  | cons a t ih =>
    intro c h
    rw [List.dropWhile_cons] at h
    by_cases hp : p a = true
    · rw [if_pos hp] at h
      exact ih c h
    · have hp' : p a = false := Bool.not_eq_true _ ▸ hp
      rw [hp'] at h
      simp at h
      rw [← h]
      exact hp'

/-- Splitting at the last opening parenthesis: the line decomposes around a
parenthesis with none occurring later. -/
lemma parenSplitLast_spec (line : Str) (h : '(' ∈ line) :
    line = (parenSplitLast line).1 ++ '(' :: (parenSplitLast line).2 ∧
    '(' ∉ (parenSplitLast line).2 := by
  have happ : line.reverse.takeWhile (fun c => c ≠ '(') ++
      line.reverse.dropWhile (fun c => c ≠ '(') = line.reverse :=
    List.takeWhile_append_dropWhile _ _
  set u := line.reverse.takeWhile (fun c => c ≠ '(') with hu
  have hd : line.reverse.dropWhile (fun c => c ≠ '(') ≠ [] := by
    intro hnil
    rw [hnil, List.append_nil] at happ
    have h2 : '(' ∈ u := by
      rw [happ]
      exact List.mem_reverse.mpr h
    have := List.mem_takeWhile_imp h2
    simp at this
  obtain ⟨c, w, hd2⟩ : ∃ c w, line.reverse.dropWhile (fun c => c ≠ '(') = c :: w := by
    cases hcase : line.reverse.dropWhile (fun c => c ≠ '(') with
    | nil => exact absurd hcase hd
    | cons c w => exact ⟨c, w, rfl⟩
  have hc : c = '(' := by
    have := dropWhile_head?_not (fun c => c ≠ '(') line.reverse c (by rw [hd2]; rfl)
    simpa using this
  subst hc
  have hrv : line.reverse = u ++ '(' :: w := by rw [← happ, hd2]
  have hline : line = w.reverse ++ '(' :: u.reverse := by
    have hrr : line = line.reverse.reverse := (List.reverse_reverse line).symm
    rw [hrr, hrv]
    simp
  have hu_not : '(' ∉ u := by
    intro hm
    have := List.mem_takeWhile_imp hm
    simp at this
  have h2 : (parenSplitLast line).2 = u.reverse := rfl
  have h1 : (parenSplitLast line).1 = w.reverse := by
    show line.take (line.length - u.length - 1) = w.reverse
    have hlen : line.length - u.length - 1 = w.reverse.length := by
      have hl1 : line.length = w.length + (1 + u.length) := by
        rw [hline]
        simp only [List.length_append, List.length_reverse, List.length_cons]
        omega
      simp only [List.length_reverse]
      omega
    rw [hlen]
    conv_lhs => rw [hline]
    exact List.take_left w.reverse ('(' :: u.reverse)
  constructor
  · rw [h1, h2]
    exact hline
  · rw [h2]
    intro hm
    exact hu_not (List.mem_reverse.mp hm)

/-- Both-ends stripping decomposes the string into a stripped prefix, the
core whose first and last characters fail the predicate, and a stripped
suffix. -/
lemma stripEnds_decomp (p : Char → Bool) (l : Str) :
    ∃ u v : Str, l = u ++ stripEnds p l ++ v ∧
      (∀ c ∈ u, p c = true) ∧ (∀ c ∈ v, p c = true) ∧
      (∀ c, (stripEnds p l).head? = some c → p c = false) ∧
      (∀ c, (stripEnds p l).getLast? = some c → p c = false) := by
  refine ⟨l.takeWhile p, ((l.dropWhile p).reverse.takeWhile p).reverse, ?_, ?_, ?_, ?_, ?_⟩
  · have e2 : l.dropWhile p =
        stripEnds p l ++ ((l.dropWhile p).reverse.takeWhile p).reverse := by
      have e1 := congrArg List.reverse
        (List.takeWhile_append_dropWhile p (l.dropWhile p).reverse)
      simp only [List.reverse_append, List.reverse_reverse] at e1
      exact e1.symm
    conv_lhs => rw [← List.takeWhile_append_dropWhile p l, e2]
    rw [List.append_assoc]
  · intro c hc
    exact List.mem_takeWhile_imp hc
  · intro c hc
    exact List.mem_takeWhile_imp (List.mem_reverse.mp hc)
  · intro c h
    have h1 : ((l.dropWhile p).reverse.dropWhile p).getLast? = some c := by
      rw [← List.head?_reverse]
      exact h
    have hne : (l.dropWhile p).reverse.dropWhile p ≠ [] := by
      intro hnil
      rw [hnil] at h1
      simp at h1
    have h2 : (l.dropWhile p).reverse.getLast? = some c := by
      conv_lhs => rw [← List.takeWhile_append_dropWhile p (l.dropWhile p).reverse]
      rw [List.getLast?_append_of_ne_nil _ hne]
      exact h1
    have h3 : (l.dropWhile p).head? = some c := by
      rw [← List.getLast?_reverse]
      exact h2
    exact dropWhile_head?_not p l c h3
  · intro c h
    have h1 : ((l.dropWhile p).reverse.dropWhile p).head? = some c := by
      rw [← List.getLast?_reverse]
      exact h
    exact dropWhile_head?_not p (l.dropWhile p).reverse c h1

/-- A map relates pointwise to its source list. -/
lemma forall2_map_self {α β : Type} (R : α → β → Prop) (f : α → β)
    (h : ∀ a, R a (f a)) : ∀ l : List α, List.Forall₂ R l (l.map f)
  | [] => List.Forall₂.nil
  | a :: t => List.Forall₂.cons (h a) (forall2_map_self R f h t)

/-- C8 (amended): `extract_bullet_list` splits on line boundaries, drops the
lines that are blank (whitespace only) before bullet stripping, and for each
remaining line, in order, strips any run of the glyphs bullet, hyphen and
space from both ends and trims whitespace; a line consisting only of such
glyphs survives the blank filter and is emitted as an empty entry. -/
theorem C8_amended (section_text : Str) :
    List.Forall₂ (fun line entry =>
      ∃ u s0 v : Str, line = u ++ s0 ++ v ∧
        (∀ c ∈ u, isBulletChar c = true) ∧ (∀ c ∈ v, isBulletChar c = true) ∧
        (∀ c, s0.head? = some c → isBulletChar c = false) ∧
        (∀ c, s0.getLast? = some c → isBulletChar c = false) ∧
        entry = stripWS s0)
      ((splitlines section_text).filter (fun line => !(stripWS line).isEmpty))
      (extract_bullet_list section_text) := by
  unfold extract_bullet_list
  apply forall2_map_self
  intro line
  obtain ⟨u, v, hdec, hu, hv, hh, hl⟩ := stripEnds_decomp isBulletChar line
  exact ⟨u, stripEnds isBulletChar line, v, hdec, hu, hv, hh, hl, rfl⟩

/-- C7 (amended): `extract_key_value_pairs` emits one pair per line of the
section, including blank lines, which produce the pair of empty strings; a
normalised line containing both parenthesis characters splits at its last
opening parenthesis into the trimmed label before it and the detail after it
with every leading and trailing closing parenthesis removed; any other line
becomes the label with an empty detail. -/
theorem C7_amended (section_text : Str) :
    List.Forall₂ (fun line pr =>
      (((cleanLine line).contains '(' && (cleanLine line).contains ')') = true ∧
        ∃ a b : Str, cleanLine line = a ++ '(' :: b ∧ '(' ∉ b ∧
          pr.1 = stripWS a ∧ pr.2 = stripEnds (fun c => c = ')') b) ∨
      (((cleanLine line).contains '(' && (cleanLine line).contains ')') = false ∧
        pr = (cleanLine line, ([] : Str))))
      (splitlines section_text) (extract_key_value_pairs section_text) := by
  unfold extract_key_value_pairs
  apply forall2_map_self
  intro line
  by_cases h : ((cleanLine line).contains '(' && (cleanLine line).contains ')') = true
  · left
    refine ⟨h, ?_⟩
    have hmem : '(' ∈ cleanLine line := by
      have h1 := (Bool.and_eq_true _ _).mp h |>.1
      exact List.elem_iff.mp h1
    obtain ⟨hdec, hnot⟩ := parenSplitLast_spec (cleanLine line) hmem
    refine ⟨(parenSplitLast (cleanLine line)).1, (parenSplitLast (cleanLine line)).2,
      hdec, hnot, ?_, ?_⟩
    · show (kvSplit (cleanLine line)).1 = _
      unfold kvSplit
      rw [if_pos h]
    · show (kvSplit (cleanLine line)).2 = _
      unfold kvSplit
      rw [if_pos h]
  · right
    have h' : ((cleanLine line).contains '(' && (cleanLine line).contains ')') = false :=
      Bool.not_eq_true _ ▸ h
    refine ⟨h', ?_⟩
    show kvSplit (cleanLine line) = _
    unfold kvSplit
    rw [if_neg h]

/-- C10 (confirmed): both extractors strip the bullet glyph, the hyphen and
the space from both ends of each line, not only the leading end: on a
single-line section the emitted entry derives from the line with every
leading and trailing character of that set removed and remaining whitespace
trimmed. -/
theorem C10 (line : Str) (h1 : splitlines line = [line])
    (h2 : (stripWS line).isEmpty = false) :
    extract_bullet_list line = [stripWS (stripEnds isBulletChar line)] ∧
    extract_key_value_pairs line = [kvSplit (stripWS (stripEnds isBulletChar line))] := by
  constructor
  · unfold extract_bullet_list
    rw [h1]
    simp [h2, cleanLine]
  · unfold extract_key_value_pairs
    rw [h1]
    rfl

/-- C10 witness: a line with a leading bullet and a trailing hyphen loses
both. -/
theorem C10_witness :
    extract_bullet_list "• hi -".toList =
      [stripWS (stripEnds isBulletChar "• hi -".toList)] ∧
    extract_key_value_pairs "• hi -".toList =
      [kvSplit (stripWS (stripEnds isBulletChar "• hi -".toList))] :=
  C10 "• hi -".toList (by decide) (by decide)

/-- When the rendered length fits `Py_ssize_t`, the overflow-aware bar equals
the total one. -/
lemma barE_eq_of_le (scores : List (Str × Nat)) (left right : Str)
    (h : roundCells (getScore scores (capitalize left)) ≤ pyMaxSize) :
    barE scores left right = .ok (bar scores left right) := by
  simp only [barE, pyRepeat, bar, barRender]
  rw [if_pos h]
  rfl

/-- When every axis renders within `Py_ssize_t`, the overflow-aware generator
agrees with the total embedding: the total model is the program's behaviour
on its whole non-overflowing range. -/
lemma generate_barsE_eq (text : Str)
    (h : ∀ pr ∈ axisPairs, roundCells (getScore (scoresOf text) (capitalize pr.1)) ≤ pyMaxSize) :
    generate_personality_barsE text = .ok (generate_personality_bars text) := by
  have h1 := barE_eq_of_le (scoresOf text) "Introverted".toList "Extroverted".toList
    (h ("Introverted".toList, "Extroverted".toList) (by simp [axisPairs]))
  have h2 := barE_eq_of_le (scoresOf text) "Intuitive".toList "Sensing".toList
    (h ("Intuitive".toList, "Sensing".toList) (by simp [axisPairs]))
  have h3 := barE_eq_of_le (scoresOf text) "Feeling".toList "Thinking".toList
    (h ("Feeling".toList, "Thinking".toList) (by simp [axisPairs]))
  have h4 := barE_eq_of_le (scoresOf text) "Perceiving".toList "Judging".toList
    (h ("Perceiving".toList, "Judging".toList) (by simp [axisPairs]))
  simp only [generate_personality_barsE, generate_personality_bars]
  rw [h1, h2, h3, h4]
  rfl

/-- C2 (code_bug): at the failing input the matched percentage is 10^22, the
filled-cell count is 2 * 10^21, which exceeds `Py_ssize_t`, and
`generate_personality_bars` raises `OverflowError` instead of returning a
list of 4 bar strings: the bar-count invariant the claim (and the spec's
must-not-crash requirement) states fails on the code. -/
theorem C2_failing :
    roundCells (getScore (scoresOf overflowScoreText) (capitalize "Introverted".toList)) =
      2000000000000000000000 ∧
    pyMaxSize < 2000000000000000000000 ∧
    generate_personality_barsE overflowScoreText = .error "OverflowError" :=
  ⟨by decide, by decide, by rfl⟩

/-- C3 (code_bug): on a string input carrying that percentage under the
Personality heading, the exception propagates out of `parse_llm_response`:
the parser does raise on a string input, refuting the never-throw policy the
claim states. -/
theorem C3_failing :
    parse_llm_responseE overflowInput = .error "OverflowError" := by
  rfl

end PersonaFinder
